import Mathlib

/-!
Shallow embedding of the MyGeo4 fragment-placement / replication engine.

Python dictionaries (which preserve insertion order) are modelled as
association lists over `String` keys; `d[k] = v` overwrites in place,
`del d[k]` removes the binding.  Machine integers are modelled as `ℕ`/`ℤ`
(Python integers are unbounded), real-valued utilisation percentages as `ℚ`,
and fallible code paths (uncaught `KeyError`/`IndexError`/RPC exceptions)
as `Option`/explicit outcome values.  Remote calls to data nodes are
modelled by explicit outcome functions passed as parameters.
-/

namespace MyGeo

/-- Python dict lookup `d.get(k)` / `d[k]` over an insertion-ordered
association list. -/
def dictGet? {β : Type} (k : String) : List (String × β) → Option β
  | [] => none
  | (k2, v) :: rest => if k = k2 then some v else dictGet? k rest

/-- Python `k in d`. -/
def dictMem {β : Type} (k : String) (d : List (String × β)) : Bool :=
  (dictGet? k d).isSome

/-- Python `d[k] = v`: overwrite in place when the key exists (keeping its
position), append a new binding otherwise. -/
def dictSet {β : Type} (k : String) (v : β) : List (String × β) → List (String × β)
  | [] => [(k, v)]
  | (k2, v2) :: rest => if k = k2 then (k, v) :: rest else (k2, v2) :: dictSet k v rest

/-- Python `del d[k]` (removes the binding; dict keys are unique). -/
def dictDel {β : Type} (k : String) : List (String × β) → List (String × β)
  | [] => []
  | (k2, v2) :: rest => if k = k2 then rest else (k2, v2) :: dictDel k rest

theorem dictGet?_dictSet_self {β : Type} (k : String) (v : β) (d : List (String × β)) :
    dictGet? k (dictSet k v d) = some v := by
  induction d with
  | nil => simp [dictSet, dictGet?]
  | cons p rest ih =>
    by_cases h : k = p.1
    · simp [dictSet, dictGet?, h]
    · simp [dictSet, dictGet?, h, ih]

theorem dictSet_dictSet_self {β : Type} (k : String) (v w : β) (d : List (String × β)) :
    dictSet k v (dictSet k w d) = dictSet k v d := by
  induction d with
  | nil => simp [dictSet]
  | cons p rest ih =>
    by_cases h : k = p.1
    · simp [dictSet, h]
    · simp [dictSet, h, ih]

theorem dictGet?_isSome_of_mem {β : Type} {k : String} {d : List (String × β)}
    (h : dictMem k d = true) : ∃ v, dictGet? k d = some v := by
  unfold dictMem at h
  exact Option.isSome_iff_exists.mp h

/-! ## `models.py` — the `Models` metadata store -/

/-- The three dictionaries created by `Models.__init__`. -/
structure Models where
  nos_fragmentos : List (String × List (List String))
  tamanho_fragmentos : List (String × List (Option ℕ))
  tamanho_imagem : List (String × ℕ)
deriving DecidableEq

/-- A fresh `Models()`. -/
def Models.empty : Models := ⟨[], [], []⟩

/-- `Models.iniciar_imagem`: create empty per-fragment structures, rejecting a
name that is already tracked. -/
def Models.iniciar_imagem (m : Models) (nome : String) (divisoes : ℕ) : Models × Bool :=
  if dictMem nome m.nos_fragmentos then (m, false)
  else
    ({ nos_fragmentos := dictSet nome (List.replicate divisoes []) m.nos_fragmentos
       tamanho_fragmentos := dictSet nome (List.replicate divisoes none) m.tamanho_fragmentos
       tamanho_imagem := dictSet nome 0 m.tamanho_imagem }, true)

/-- The `for no in nos: if no not in l: l.append(no)` loop shared by
`Models.atualizar_fragmento` and `Cluster.atualizar_tabela_indice`. -/
def addUniqueNodes (atual : List String) : List String → List String
  | [] => atual
  | n :: ns => addUniqueNodes (if n ∈ atual then atual else atual ++ [n]) ns

/-- `Models.atualizar_fragmento`.  `none` models the uncaught
`KeyError`/`IndexError` raised when the image is untracked or the index is out
of range.  Note the final line of the source: the cached total image size is
increased by `tamanho` on every call. -/
def Models.atualizar_fragmento (m : Models) (nome : String) (indice tamanho : ℕ)
    (nos : List String) : Option Models :=
  match dictGet? nome m.nos_fragmentos, dictGet? nome m.tamanho_fragmentos,
        dictGet? nome m.tamanho_imagem with
  | some frags, some tams, some total =>
    if indice < frags.length ∧ indice < tams.length then
      some
        { nos_fragmentos :=
            dictSet nome (frags.set indice (addUniqueNodes (frags.getD indice []) nos))
              m.nos_fragmentos
          tamanho_fragmentos := dictSet nome (tams.set indice (some tamanho)) m.tamanho_fragmentos
          tamanho_imagem := dictSet nome (total + tamanho) m.tamanho_imagem }
    else none
  | _, _, _ => none

/-- `Models.verificar_imagem_completa`: `all(tamanho is not None ...)` over the
recorded fragment sizes; `False` for an untracked name. -/
def Models.verificar_imagem_completa (m : Models) (nome : String) : Bool :=
  match dictGet? nome m.tamanho_fragmentos with
  | none => false
  | some tams => tams.all (fun t => t.isSome)

/-- `Models.obter_tamanho_imagem`: the cached running total (0 if untracked). -/
def Models.obter_tamanho_imagem (m : Models) (nome : String) : ℕ :=
  (dictGet? nome m.tamanho_imagem).getD 0

/-! ## `cluster.py` — the `Cluster` index table and Strategy A selection -/

/-- One entry of `Cluster.tabela_indice` (the dict `{'nodes': [...],
'size': ...}`). -/
structure Fragmento where
  nodes : List String
  size : Option ℕ
deriving DecidableEq

/-- `Cluster.tabela_indice`: image name → ordered fragment list. -/
abbrev TabelaIndice := List (String × List Fragmento)

/-- `Cluster.iniciar_tabela_indice`: reject a tracked name, otherwise create
`divisoes` empty fragment slots. -/
def iniciar_tabela_indice (t : TabelaIndice) (nome : String) (divisoes : ℕ) :
    TabelaIndice × Bool :=
  if dictMem nome t then (t, false)
  else (dictSet nome (List.replicate divisoes ⟨[], none⟩) t, true)

/-- `Cluster.atualizar_tabela_indice`: merge the replica nodes (append-if-absent)
and set the fragment size.  `none` models the uncaught `KeyError`/`IndexError`. -/
def atualizar_tabela_indice (t : TabelaIndice) (nome : String) (indice tamanho : ℕ)
    (nos : List String) : Option TabelaIndice :=
  match dictGet? nome t with
  | none => none
  | some frags =>
    if indice < frags.length then
      let f := frags.getD indice ⟨[], none⟩
      some (dictSet nome (frags.set indice ⟨addUniqueNodes f.nodes nos, some tamanho⟩) t)
    else none

/-- `Cluster.tamanho_total_imagem`: `sum(fragmento['size'] or 0 ...)` (0 for an
untracked name). -/
def tamanho_total_imagem (t : TabelaIndice) (nome : String) : ℕ :=
  (((dictGet? nome t).getD []).map (fun f => f.size.getD 0)).sum

/-- Result of a data node's `obter_status_no` probe (percent utilisation);
`none` models a probe call that raises.  Python float percentages are modelled
exactly as rationals. -/
structure NodeStatus where
  cpu : ℚ
  memoria : ℚ
  disco : ℚ
deriving DecidableEq

/-- `Cluster.calcular_pontuacao_no`: the weighted free-resource score
`0.4*(100-cpu) + 0.3*(100-mem) + 0.3*(100-disk)`, with score `0` when the
status probe fails (the node stays in the candidate list). -/
def calcular_pontuacao_no (probe : Option NodeStatus) : ℚ :=
  match probe with
  | some s =>
      (100 - s.cpu) * (4 / 10) + (100 - s.memoria) * (3 / 10) + (100 - s.disco) * (3 / 10)
  | none => 0

/-- The scored-node list built inside `Cluster.selecionar_nos_armazenamento`
(`data_nodes` in dict order, each id paired with its probe outcome). -/
def nosPontuados (dataNodes : List (String × Option NodeStatus)) : List (String × ℚ) :=
  dataNodes.map (fun p => (p.1, calcular_pontuacao_no p.2))

/-- Python `list.sort(key=lambda x: x[1], reverse=True)`: a stable descending
sort by score, realised by Mathlib's stable `insertionSort`. -/
def sortDescByScore (l : List (String × ℚ)) : List (String × ℚ) :=
  List.insertionSort (fun a b => b.2 ≤ a.2) l

/-- `Cluster.selecionar_nos_armazenamento`: score every node, sort descending,
return the first `max(fator_replicacao, len(nos_pontuados))` node ids. -/
def selecionar_nos_armazenamento (dataNodes : List (String × Option NodeStatus))
    (fatorReplicacao : ℕ) : List String :=
  ((sortDescByScore (nosPontuados dataNodes)).take
      (max fatorReplicacao (nosPontuados dataNodes).length)).map Prod.fst

/-! ## `data_distributor.py` — Strategy B consistent-hash placement -/

/-- Python `abs(a - b)` for the nonnegative hash integers. -/
def absDiff (a b : ℕ) : ℕ := max a b - min a b

/-- Python `min(l, key=k)` with `acc` the best element seen so far: keeps the
earliest minimiser (replaces only on a strictly smaller key). -/
def minByKey {α : Type} (key : α → ℕ) (acc : α) : List α → α
  | [] => acc
  | x :: xs => if key x < key acc then minByKey key x xs else minByKey key acc xs

/-- Default value used with `List.getD` at indices that are provably in range
(Python indexing never takes it). -/
def dfltNode : String := ""

/-- The `sorted_nodes` list of `_select_nodes_for_fragment`: Python
`sorted(available_nodes, key=lambda node: self._consistent_hash(str(node)))`,
a stable ascending sort by hash value. -/
def sortedNodesByHash (md5 : String → ℕ) (available_nodes : List String) : List String :=
  List.insertionSort (fun x y => md5 x ≤ md5 y) available_nodes

/-- `DataDistributor._select_nodes_for_fragment`.  The MD5-digest-to-integer
map `_consistent_hash` is modelled as an abstract function `md5 : String → ℕ`
(per the spec the exact hash family is not load-bearing).  `none` models the
`ValueError` Python raises when the node list is empty. -/
def select_nodes_for_fragment (md5 : String → ℕ) (replication_factor : ℕ)
    (image_name : String) (fragment_index : ℕ) (available_nodes : List String) :
    Option (List String) :=
  let hash_value := md5 (image_name ++ "_" ++ toString fragment_index)
  match sortedNodesByHash md5 available_nodes with
  | [] => none
  | s0 :: srest =>
    let nearest := minByKey (fun node => absDiff (md5 node) hash_value) s0 srest
    let start_index := (s0 :: srest).indexOf nearest
    some ((List.range replication_factor).map
      (fun i => (s0 :: srest).getD ((start_index + i) % (s0 :: srest).length) dfltNode))

/-! ## `server.py` — transfer-session operations over the `Cluster` table -/

/-- The sequential replica-write loop of `Server.exposed_upload_fragmento`;
`writeOk n` is the outcome of `armazenar_fragmento_imagem` on node `n` (an RPC
exception is caught by the surrounding handler and takes the same failure path
as a `False` return, with the same table left untouched).  Returns `true` iff
every selected node reports success; the loop stops at the first failure. -/
def escreverReplicas (writeOk : String → Bool) : List String → Bool
  | [] => true
  | n :: ns => if writeOk n then escreverReplicas writeOk ns else false

/-- Outcome of one `exposed_upload_fragmento` call: the success flag of the
returned dict and the (possibly updated) index table. -/
structure UploadFragResult where
  sucesso : Bool
  tabela : TabelaIndice
deriving DecidableEq

/-- `Server.exposed_upload_fragmento` for an active upload session
(`nome_imagem_atual = nomeImagemAtual`, `nos_selecionados = nosSelecionados`):
write the fragment to every selected node; only if all writes succeed is
`atualizar_tabela_indice` called.  The method touches no session field, so the
session state other than the table is unchanged by construction. -/
def upload_fragmento (writeOk : String → Bool) (tabela : TabelaIndice)
    (nomeImagemAtual : String) (nosSelecionados : List String)
    (tamanhoFragmento indiceFragmento : ℕ) : UploadFragResult :=
  if escreverReplicas writeOk nosSelecionados then
    match atualizar_tabela_indice tabela nomeImagemAtual indiceFragmento
        tamanhoFragmento nosSelecionados with
    | some t2 => ⟨true, t2⟩
    | none => ⟨false, tabela⟩
  else ⟨false, tabela⟩

/-- The nested delete loop of `Server.exposed_deletar_imagem` over
`enumerate(tabela_indice[nome])`: `deleteCall n i = none` models an RPC
exception (unreachable node / dead connection) — it aborts the whole method —
while `some b` is the boolean `deletar_fragmento_imagem` returned, which the
source ignores.  Returns `true` iff no call raised. -/
def deletarFragmentosLoop (deleteCall : String → ℕ → Option Bool) :
    ℕ → List Fragmento → Bool
  | _, [] => true
  | idx, f :: fs =>
    if f.nodes.all (fun n => (deleteCall n idx).isSome) then
      deletarFragmentosLoop deleteCall (idx + 1) fs
    else false

/-- `Server.exposed_deletar_imagem`: best-effort per-node deletes followed by
`del tabela_indice[nome]`; an exception anywhere is caught and returns `False`
without removing the table entry. -/
def deletar_imagem (deleteCall : String → ℕ → Option Bool) (tabela : TabelaIndice)
    (nome : String) : Bool × TabelaIndice :=
  match dictGet? nome tabela with
  | none => (false, tabela)
  | some frags =>
    if deletarFragmentosLoop deleteCall 0 frags then (true, dictDel nome tabela)
    else (false, tabela)

/-- `Server.exposed_listar_imagens`: the tracked image names in table order. -/
def listar_imagens (tabela : TabelaIndice) : List String := tabela.map Prod.fst

/-- `Server.TAMANHO_FRAGMENTO` (2 MiB). -/
def TAMANHO_FRAGMENTO : ℕ := 2097152

/-- `math.ceil(tamanho_imagem / TAMANHO_FRAGMENTO)` on nonnegative integers. -/
def divisoesImagem (tamanhoImagem : ℕ) : ℕ :=
  (tamanhoImagem + TAMANHO_FRAGMENTO - 1) / TAMANHO_FRAGMENTO

/-- Response of `Server.exposed_iniciar_upload` (the fields of the returned
dict that the protocol uses). -/
structure IniciarUploadResult where
  sucesso : Bool
  divisoes : Option ℕ
  nos : Option (List String)
deriving DecidableEq

/-- `Server.exposed_iniciar_upload`: `iniciar_tabela_indice` rejects a tracked
name (response `sucesso = False`, table unchanged); on success the upload state
is configured and storage nodes are selected via Strategy A. -/
def iniciar_upload (dataNodes : List (String × Option NodeStatus)) (R : ℕ)
    (tabela : TabelaIndice) (nome : String) (tamanho : ℕ) :
    IniciarUploadResult × TabelaIndice :=
  let d := divisoesImagem tamanho
  let r := iniciar_tabela_indice tabela nome d
  if r.2 then (⟨true, some d, some (selecionar_nos_armazenamento dataNodes R)⟩, r.1)
  else (⟨false, none, none⟩, r.1)

/-- Value returned by `Server.exposed_recuperar_fragmento`: fragment bytes, or
the string `'erro'`. -/
inductive FragResp
  | bytes (b : List ℕ)
  | erro
deriving DecidableEq

/-- `Server.exposed_recuperar_fragmento` for an active download session on
`nome` with cursor `indice`.  `retr n i = none` models an RPC exception on
node `n`; `some (frag, fim)` is the datanode's `(fragmento, fim)` pair
(`frag = none` for a missing fragment).  The source's final
`return fragmento or 'erro'` maps both `None` (including the past-the-end
case, where the inner branch is skipped) and empty bytes to `'erro'`.
Returns the response together with the new cursor. -/
def recuperar_fragmento (retr : String → ℕ → Option (Option (List ℕ) × Bool))
    (tabela : TabelaIndice) (nome : String) (indice : ℕ) : FragResp × ℕ :=
  match dictGet? nome tabela with
  | none => (.erro, indice)
  | some frags =>
    if indice < frags.length then
      match (frags.getD indice ⟨[], none⟩).nodes with
      | [] => (.erro, indice)
      | n0 :: _ =>
        match retr n0 indice with
        | none => (.erro, indice)
        | some (fragOpt, fim) =>
          let i2 := if fim then indice + 1 else indice
          match fragOpt with
          | some bs => if bs.isEmpty then (.erro, i2) else (.bytes bs, i2)
          | none => (.erro, i2)
    else (.erro, indice)

/-! ## `coordinator_node.py` — metadata overwrite and heartbeat health -/

/-- One value of `CoordinatorNode.image_metadata` (the `status` key only
appears after `complete_upload`). -/
structure ImageMeta where
  total_size : ℕ
  num_fragments : ℕ
  fragment_size : ℕ
  distribution : List (ℕ × List String)
  status : Option String
deriving DecidableEq

/-- `CoordinatorNode.exposed_initiate_upload`: computes the fragment count and
per-fragment placement (`DataDistributor.distribute_fragments` over the static,
nonempty topology `storageNodes`) and stores the entry with `dict` assignment —
no existence check, an already-tracked name is overwritten unconditionally, and
no failure response exists. -/
def initiate_upload (md5 : String → ℕ) (replication_factor : ℕ)
    (storageNodes : List String) (meta : List (String × ImageMeta))
    (image_name : String) (total_size : ℕ) :
    (ℕ × ℕ × List (ℕ × List String)) × List (String × ImageMeta) :=
  let fragment_size := 2097152
  let num_fragments := (total_size + fragment_size - 1) / fragment_size
  let distribution := (List.range num_fragments).map
    (fun i =>
      (i, (select_nodes_for_fragment md5 replication_factor image_name i storageNodes).getD []))
  let entry : ImageMeta := ⟨total_size, num_fragments, fragment_size, distribution, none⟩
  ((fragment_size, num_fragments, distribution), dictSet image_name entry meta)

/-- One value of `CoordinatorNode.storage_nodes`; `time.time()` timestamps are
modelled as integers. -/
structure StorageNodeInfo where
  address : String
  status : String
  last_heartbeat : ℤ
deriving DecidableEq

/-- `CoordinatorNode.exposed_heartbeat` at time `now`: refresh
`last_heartbeat` and force `status = 'active'` for a registered node. -/
def heartbeat (nodes : List (String × StorageNodeInfo)) (node_id : String) (now : ℤ) :
    Bool × List (String × StorageNodeInfo) :=
  match dictGet? node_id nodes with
  | none => (false, nodes)
  | some info =>
      (true, dictSet node_id { info with last_heartbeat := now, status := "active" } nodes)

/-- One sweep of `CoordinatorNode._check_node_health` at time `now`: every node
whose heartbeat is older than 30 seconds is marked `'inactive'`. -/
def check_node_health (nodes : List (String × StorageNodeInfo)) (now : ℤ) :
    List (String × StorageNodeInfo) :=
  nodes.map (fun p =>
    if now - p.2.last_heartbeat > 30 then (p.1, { p.2 with status := "inactive" }) else p)

/-- `active_nodes` of `CoordinatorNode.exposed_get_system_status`. -/
def system_status_active_nodes (nodes : List (String × StorageNodeInfo)) : ℕ :=
  (nodes.filter (fun p => p.2.status == "active")).length

/-- `total_nodes` of `CoordinatorNode.exposed_get_system_status`. -/
def system_status_total_nodes (nodes : List (String × StorageNodeInfo)) : ℕ :=
  nodes.length

/-! ## Helper lemmas -/

theorem dictGet?_eq_none_iff {β : Type} {k : String} {d : List (String × β)} :
    dictGet? k d = none ↔ k ∉ d.map Prod.fst := by
  induction d with
  | nil => simp [dictGet?]
  | cons p rest ih =>
    by_cases h : k = p.1
    · simp [dictGet?, h]
    · simp [dictGet?, h, ih]

theorem mem_map_fst_of_dictGet? {β : Type} {k : String} {d : List (String × β)} {v : β}
    (h : dictGet? k d = some v) : k ∈ d.map Prod.fst := by
  by_contra hk
  rw [← dictGet?_eq_none_iff] at hk
  rw [h] at hk
  exact Option.noConfusion hk

theorem not_mem_map_fst_dictDel {β : Type} {k : String} {d : List (String × β)}
    (hnd : (d.map Prod.fst).Nodup) : k ∉ (dictDel k d).map Prod.fst := by
  induction d with
  | nil => simp [dictDel]
  | cons p rest ih =>
    simp only [List.map_cons, List.nodup_cons] at hnd
    by_cases h : k = p.1
    · subst h
      simpa [dictDel] using hnd.1
    · simp only [dictDel, if_neg h, List.map_cons, List.mem_cons]
      rintro (rfl | hmem)
      · exact h rfl
      · exact ih hnd.2 hmem

theorem set_getD_self {α : Type} : ∀ (l : List α) (i : ℕ) (d : α), i < l.length →
    l.set i (l.getD i d) = l
  | [], _, _, h => absurd h (by simp)
  | _ :: _, 0, _, _ => by simp
  | a :: l, (i + 1), d, h => by
    simp only [List.set_cons_succ, List.getD_cons_succ]
    rw [set_getD_self l i d (by simpa using h)]

theorem escreverReplicas_eq_true_iff (writeOk : String → Bool) (l : List String) :
    escreverReplicas writeOk l = true ↔ ∀ n ∈ l, writeOk n = true := by
  induction l with
  | nil => simp [escreverReplicas]
  | cons n ns ih =>
    by_cases h : writeOk n
    · simp [escreverReplicas, h, ih]
    · simp [escreverReplicas, h]

theorem mem_addUniqueNodes (l ns : List String) (a : String) :
    a ∈ addUniqueNodes l ns ↔ a ∈ l ∨ a ∈ ns := by
  induction ns generalizing l with
  | nil => simp [addUniqueNodes]
  | cons n rest ih =>
    by_cases h : n ∈ l
    · rw [addUniqueNodes, if_pos h, ih]
      constructor
      · rintro (ha | ha)
        · exact Or.inl ha
        · exact Or.inr (List.mem_cons_of_mem _ ha)
      · rintro (ha | ha)
        · exact Or.inl ha
        · rcases List.mem_cons.mp ha with rfl | ha
          · exact Or.inl h
          · exact Or.inr ha
    · rw [addUniqueNodes, if_neg h, ih]
      constructor
      · rintro (ha | ha)
        · rcases List.mem_append.mp ha with ha | ha
          · exact Or.inl ha
          · rcases List.mem_singleton.mp ha with rfl
            exact Or.inr (List.mem_cons_self _ _)
        · exact Or.inr (List.mem_cons_of_mem _ ha)
      · rintro (ha | ha)
        · exact Or.inl (List.mem_append.mpr (Or.inl ha))
        · rcases List.mem_cons.mp ha with rfl | ha
          · exact Or.inl (List.mem_append.mpr (Or.inr (List.mem_singleton.mpr rfl)))
          · exact Or.inr ha

theorem addUniqueNodes_eq_append (l ns : List String) :
    ∃ tl, addUniqueNodes l ns = l ++ tl ∧ ∀ a ∈ tl, a ∈ ns := by
  induction ns generalizing l with
  | nil => exact ⟨[], by simp [addUniqueNodes], by simp⟩
  | cons n rest ih =>
    by_cases h : n ∈ l
    · obtain ⟨tl, htl, hsub⟩ := ih l
      exact ⟨tl, by rw [addUniqueNodes, if_pos h, htl],
        fun a ha => List.mem_cons_of_mem _ (hsub a ha)⟩
    · obtain ⟨tl, htl, hsub⟩ := ih (l ++ [n])
      refine ⟨n :: tl, ?_, ?_⟩
      · rw [addUniqueNodes, if_neg h, htl, List.append_assoc]
        rfl
      · rintro a ha
        rcases List.mem_cons.mp ha with rfl | ha
        · exact List.mem_cons_self _ _
        · exact List.mem_cons_of_mem _ (hsub a ha)

theorem addUniqueNodes_of_subset {l ns : List String} (h : ∀ n ∈ ns, n ∈ l) :
    addUniqueNodes l ns = l := by
  induction ns with
  | nil => rfl
  | cons n rest ih =>
    rw [addUniqueNodes, if_pos (h n (List.mem_cons_self _ _))]
    exact ih fun m hm => h m (List.mem_cons_of_mem _ hm)

theorem minByKey_mem {α : Type} (key : α → ℕ) (acc : α) (l : List α) :
    minByKey key acc l = acc ∨ minByKey key acc l ∈ l := by
  induction l generalizing acc with
  | nil => exact Or.inl rfl
  | cons x xs ih =>
    rw [minByKey]
    by_cases h : key x < key acc
    · rw [if_pos h]
      rcases ih x with he | hm
      · exact Or.inr (by rw [he]; exact List.mem_cons_self _ _)
      · exact Or.inr (List.mem_cons_of_mem _ hm)
    · rw [if_neg h]
      rcases ih acc with he | hm
      · exact Or.inl he
      · exact Or.inr (List.mem_cons_of_mem _ hm)

theorem minByKey_le {α : Type} (key : α → ℕ) (acc : α) (l : List α) :
    key (minByKey key acc l) ≤ key acc ∧
      ∀ y ∈ l, key (minByKey key acc l) ≤ key y := by
  induction l generalizing acc with
  | nil => exact ⟨le_refl _, by simp⟩
  | cons x xs ih =>
    rw [minByKey]
    by_cases h : key x < key acc
    · rw [if_pos h]
      obtain ⟨h1, h2⟩ := ih x
      refine ⟨le_of_lt (lt_of_le_of_lt h1 h), ?_⟩
      rintro y hy
      rcases List.mem_cons.mp hy with rfl | hy
      · exact h1
      · exact h2 y hy
    · rw [if_neg h]
      obtain ⟨h1, h2⟩ := ih acc
      refine ⟨h1, ?_⟩
      rintro y hy
      rcases List.mem_cons.mp hy with rfl | hy
      · exact le_trans h1 (le_of_not_lt h)
      · exact h2 y hy

theorem deletarFragmentosLoop_eq_true_iff (deleteCall : String → ℕ → Option Bool)
    (k : ℕ) (fs : List Fragmento) :
    deletarFragmentosLoop deleteCall k fs = true ↔
      ∀ i f, fs.get? i = some f → ∀ n ∈ f.nodes, (deleteCall n (k + i)).isSome := by
  induction fs generalizing k with
  | nil => simp [deletarFragmentosLoop]
  | cons f fs ih =>
    rw [deletarFragmentosLoop]
    by_cases h : f.nodes.all (fun n => (deleteCall n k).isSome)
    · rw [if_pos h, ih]
      constructor
      · rintro hrest i g hg n hn
        match i, hg with
        | 0, hg =>
          cases Option.some.inj hg
          simpa using (List.all_eq_true.mp h) n hn
        | (i + 1), hg =>
          have := hrest i g (by simpa using hg) n hn
          simpa [Nat.add_assoc, Nat.add_comm 1 i] using this
      · rintro hall i g hg n hn
        have := hall (i + 1) g (by simpa using hg) n hn
        simpa [Nat.add_assoc, Nat.add_comm 1 i] using this
    · rw [if_neg h]
      constructor
      · intro hf
        exact absurd hf (by simp)
      · intro hall
        exfalso
        apply h
        rw [List.all_eq_true]
        intro n hn
        simpa using hall 0 f rfl n hn

theorem atualizar_tabela_indice_eq (t : TabelaIndice) (nome : String) (idx tam : ℕ)
    (nos : List String) (frags : List Fragmento)
    (htrack : dictGet? nome t = some frags) (hidx : idx < frags.length) :
    atualizar_tabela_indice t nome idx tam nos =
      some (dictSet nome
        (frags.set idx
          ⟨addUniqueNodes (frags.getD idx ⟨[], none⟩).nodes nos, some tam⟩) t) := by
  rw [atualizar_tabela_indice, htrack]
  simp [hidx]

theorem atualizar_fragmento_eq (m : Models) (nome : String) (idx tam : ℕ)
    (nos : List String) (mfr : List (List String)) (mtams : List (Option ℕ)) (mtot : ℕ)
    (h1 : dictGet? nome m.nos_fragmentos = some mfr)
    (h2 : dictGet? nome m.tamanho_fragmentos = some mtams)
    (h3 : dictGet? nome m.tamanho_imagem = some mtot)
    (hidx : idx < mfr.length) (hidx2 : idx < mtams.length) :
    m.atualizar_fragmento nome idx tam nos =
      some
        { nos_fragmentos :=
            dictSet nome (mfr.set idx (addUniqueNodes (mfr.getD idx []) nos)) m.nos_fragmentos
          tamanho_fragmentos := dictSet nome (mtams.set idx (some tam)) m.tamanho_fragmentos
          tamanho_imagem := dictSet nome (mtot + tam) m.tamanho_imagem } := by
  rw [Models.atualizar_fragmento, h1, h2, h3]
  simp [hidx, hidx2]

/-! ## Claim theorems -/

/-- C2: Strategy A scores a node as `0.4*(100-cpu) + 0.3*(100-mem) +
0.3*(100-disk)`, scores a failed probe `0` (the node stays in the candidate
list), sorts all known nodes stably in descending score order, and returns the
first `max(R, N)` of the `N` known nodes — so whenever `N ≥ R` it returns all
`N` node ids in descending-score order rather than only `R`. -/
theorem strategyA_selects_all_nodes_desc
    (dataNodes : List (String × Option NodeStatus)) (R : ℕ)
    (hR : R ≤ dataNodes.length) :
    (∀ s : NodeStatus,
        calcular_pontuacao_no (some s) =
          (100 - s.cpu) * (4 / 10) + (100 - s.memoria) * (3 / 10) +
            (100 - s.disco) * (3 / 10)) ∧
    calcular_pontuacao_no none = 0 ∧
    selecionar_nos_armazenamento dataNodes R =
      (sortDescByScore (nosPontuados dataNodes)).map Prod.fst ∧
    (selecionar_nos_armazenamento dataNodes R).length = dataNodes.length ∧
    (sortDescByScore (nosPontuados dataNodes)).Perm (nosPontuados dataNodes) ∧
    (sortDescByScore (nosPontuados dataNodes)).Sorted (fun a b => b.2 ≤ a.2) := by
  haveI hTot : IsTotal (String × ℚ) (fun a b => b.2 ≤ a.2) := ⟨fun a b => le_total b.2 a.2⟩
  haveI hTrans : IsTrans (String × ℚ) (fun a b => b.2 ≤ a.2) :=
    ⟨fun _ _ _ hab hbc => le_trans hbc hab⟩
  have hlen : (nosPontuados dataNodes).length = dataNodes.length := by
    simp [nosPontuados]
  have hslen : (sortDescByScore (nosPontuados dataNodes)).length = dataNodes.length := by
    rw [sortDescByScore, List.length_insertionSort, hlen]
  have hsel : selecionar_nos_armazenamento dataNodes R =
      (sortDescByScore (nosPontuados dataNodes)).map Prod.fst := by
    rw [selecionar_nos_armazenamento]
    have hmax : max R (nosPontuados dataNodes).length = dataNodes.length := by
      rw [hlen]
      exact max_eq_right hR
    rw [hmax, List.take_of_length_le (le_of_eq hslen)]
  refine ⟨fun s => rfl, rfl, hsel, ?_, List.perm_insertionSort _ _,
    List.sorted_insertionSort _ _⟩
  rw [hsel, List.length_map, hslen]

/-- Concrete cluster for the C2 witness: the spec §8 scenario (4 nodes,
replication factor 2, one node with a failing probe). -/
def nodes4 : List (String × Option NodeStatus) :=
  [("data_node_1", some ⟨10, 20, 5⟩), ("data_node_2", some ⟨70, 80, 90⟩),
   ("data_node_3", none), ("data_node_4", some ⟨50, 50, 50⟩)]

/-- Witness for C2 at the concrete 4-node cluster with `R = 2`. -/
theorem strategyA_selects_all_nodes_desc_witness :
    2 ≤ nodes4.length ∧ (selecionar_nos_armazenamento nodes4 2).length = nodes4.length :=
  ⟨by decide, (strategyA_selects_all_nodes_desc nodes4 2 (by decide)).2.2.2.1⟩

/-- C1: for an active upload session, a fragment submission writes to every
selected replica node and succeeds only if all writes succeed; on any replica
failure the returned dict reports failure and the distribution table is
unchanged (no size set, no nodes recorded for that fragment); the table is
updated — nodes merged, size set — exactly when all replica writes succeed. -/
theorem upload_fragmento_all_or_nothing
    (writeOk : String → Bool) (tabela : TabelaIndice) (nome : String)
    (nosSel : List String) (tam idx : ℕ) (frags : List Fragmento)
    (htrack : dictGet? nome tabela = some frags) (hidx : idx < frags.length) :
    ((∃ n ∈ nosSel, writeOk n = false) →
      upload_fragmento writeOk tabela nome nosSel tam idx = ⟨false, tabela⟩) ∧
    ((upload_fragmento writeOk tabela nome nosSel tam idx).sucesso = true ↔
      ∀ n ∈ nosSel, writeOk n = true) ∧
    ((∀ n ∈ nosSel, writeOk n = true) →
      upload_fragmento writeOk tabela nome nosSel tam idx =
        ⟨true,
          dictSet nome
            (frags.set idx
              ⟨addUniqueNodes (frags.getD idx ⟨[], none⟩).nodes nosSel, some tam⟩)
            tabela⟩) := by
  have hupd : atualizar_tabela_indice tabela nome idx tam nosSel =
      some (dictSet nome
        (frags.set idx
          ⟨addUniqueNodes (frags.getD idx ⟨[], none⟩).nodes nosSel, some tam⟩)
        tabela) := by
    rw [atualizar_tabela_indice, htrack]
    simp [hidx]
  by_cases hw : escreverReplicas writeOk nosSel = true
  · have hall := (escreverReplicas_eq_true_iff writeOk nosSel).mp hw
    have hres : upload_fragmento writeOk tabela nome nosSel tam idx =
        ⟨true,
          dictSet nome
            (frags.set idx
              ⟨addUniqueNodes (frags.getD idx ⟨[], none⟩).nodes nosSel, some tam⟩)
            tabela⟩ := by
      rw [upload_fragmento, if_pos hw, hupd]
    refine ⟨?_, ?_, fun _ => hres⟩
    · rintro ⟨n, hn, hffalse⟩
      exact absurd (hall n hn) (by simp [hffalse])
    · rw [hres]
      exact ⟨fun _ => hall, fun _ => rfl⟩
  · have hres : upload_fragmento writeOk tabela nome nosSel tam idx = ⟨false, tabela⟩ := by
      rw [upload_fragmento, if_neg hw]
    refine ⟨fun _ => hres, ?_, ?_⟩
    · rw [hres]
      constructor
      · intro hf
        exact absurd hf (by simp)
      · intro hall
        exact absurd ((escreverReplicas_eq_true_iff writeOk nosSel).mpr hall) hw
    · intro hall
      exact absurd ((escreverReplicas_eq_true_iff writeOk nosSel).mpr hall) hw

/-- Concrete table for the C1 witness: one image with two empty fragment
slots. -/
def tabelaC1 : TabelaIndice := [("img", [⟨[], none⟩, ⟨[], none⟩])]

/-- Witness for C1: submitting fragment 1 with both replica writes succeeding. -/
theorem upload_fragmento_all_or_nothing_witness :
    dictGet? "img" tabelaC1 = some [⟨[], none⟩, ⟨[], none⟩] ∧
    (1 : ℕ) < ([⟨[], none⟩, ⟨[], none⟩] : List Fragmento).length ∧
    ((upload_fragmento (fun _ => true) tabelaC1 "img" ["n1", "n2"] 512 1).sucesso = true ↔
      ∀ n ∈ ["n1", "n2"], (fun _ => true) n = true) :=
  ⟨by decide, by decide,
    (upload_fragmento_all_or_nothing (fun _ => true) tabelaC1 "img" ["n1", "n2"] 512 1
      [⟨[], none⟩, ⟨[], none⟩] (by decide) (by decide)).2.1⟩

/-- C8 counterexample input: one tracked image, one fragment recorded with size
100 and an empty replica node list. -/
def mC8 : Models :=
  (((Models.empty.iniciar_imagem "a" 1).1.atualizar_fragmento "a" 0 100 []).getD Models.empty)

/-- C8 counterexample: `verificar_imagem_completa` returns `true` for an image
whose only fragment has a defined size but an empty replica node set, so the
completeness check does not require a non-empty replica set. -/
theorem verificar_completa_true_with_empty_replicas :
    (Models.empty.iniciar_imagem "a" 1).1.atualizar_fragmento "a" 0 100 [] = some mC8 ∧
    mC8.verificar_imagem_completa "a" = true ∧
    dictGet? "a" mC8.nos_fragmentos = some [[]] := by decide

/-- C8 amended: `verificar_imagem_completa` returns `true` iff the image is
tracked and every fragment index has a defined size; the replica node sets are
not examined.  The predicate is a pure function of the current state, so it is
checkable at any time. -/
theorem verificar_imagem_completa_iff (m : Models) (nome : String) :
    m.verificar_imagem_completa nome = true ↔
      ∃ tams, dictGet? nome m.tamanho_fragmentos = some tams ∧
        ∀ t ∈ tams, t.isSome = true := by
  rw [Models.verificar_imagem_completa]
  cases h : dictGet? nome m.tamanho_fragmentos with
  | none => simp
  | some tams => simp [List.all_eq_true]

/-- Concrete download state for C5: one image with a single recorded fragment
replicated on node `n1`. -/
def tabelaC5 : TabelaIndice := [("a", [⟨["n1"], some 3⟩])]

/-- Retrieval outcomes for C5: every call succeeds with bytes `[7, 8, 9]`. -/
def retrOkC5 : String → ℕ → Option (Option (List ℕ) × Bool) :=
  fun _ _ => some (some [7, 8, 9], true)

/-- Retrieval outcomes for C5: every call raises (node unreachable). -/
def retrFailC5 : String → ℕ → Option (Option (List ℕ) × Bool) :=
  fun _ _ => none

/-- C5: at the failing input — the cursor at `fragment_count` — the
end-of-stream return value of `exposed_recuperar_fragmento` is the string
`'erro'`, the very same value returned for a retrieval error
(`return fragmento or 'erro'` maps the past-the-end `None` to `'erro'`), so no
end-of-stream sentinel distinct from the error sentinel exists; the successful
in-range call contacts only the first replica node and advances the cursor. -/
theorem recuperar_fragmento_sentinel_collision :
    recuperar_fragmento retrOkC5 tabelaC5 "a" 0 = (FragResp.bytes [7, 8, 9], 1) ∧
    recuperar_fragmento retrOkC5 tabelaC5 "a" 1 = (FragResp.erro, 1) ∧
    recuperar_fragmento retrFailC5 tabelaC5 "a" 0 = (FragResp.erro, 0) ∧
    (recuperar_fragmento retrOkC5 tabelaC5 "a" 1).1 =
      (recuperar_fragmento retrFailC5 tabelaC5 "a" 0).1 := by decide

/-- Concrete table for the C6 counterexample: one image, one fragment,
replicated on the single node `n1`. -/
def tabelaC6 : TabelaIndice := [("a", [⟨["n1"], some 5⟩])]

/-- Delete outcomes for the C6 counterexample: every delete call raises
(unreachable node). -/
def deleteRaiseC6 : String → ℕ → Option Bool := fun _ _ => none

/-- C6 counterexample: when a replica node is unreachable during the delete
call, `exposed_deletar_imagem` returns `False` and the object is NOT removed —
it still appears in the object listing — because the exception aborts the
method before `del tabela_indice[nome]`. -/
theorem deletar_imagem_unreachable_blocks_removal :
    deletar_imagem deleteRaiseC6 tabelaC6 "a" = (false, tabelaC6) ∧
    "a" ∈ listar_imagens (deletar_imagem deleteRaiseC6 tabelaC6 "a").2 := by decide

theorem deletar_imagem_ok (deleteCall : String → ℕ → Option Bool) (tabela : TabelaIndice)
    (nome : String) (frags : List Fragmento) (htrack : dictGet? nome tabela = some frags)
    (hall : ∀ i f, frags.get? i = some f → ∀ n ∈ f.nodes, (deleteCall n i).isSome = true) :
    deletar_imagem deleteCall tabela nome = (true, dictDel nome tabela) := by
  have hloop := deletarFragmentosLoop_eq_true_iff deleteCall 0 frags
  simp only [Nat.zero_add] at hloop
  rw [deletar_imagem, htrack]
  simp [hloop.mpr hall]

theorem deletar_imagem_fail (deleteCall : String → ℕ → Option Bool) (tabela : TabelaIndice)
    (nome : String) (frags : List Fragmento) (htrack : dictGet? nome tabela = some frags)
    (hnall : ¬ ∀ i f, frags.get? i = some f → ∀ n ∈ f.nodes, (deleteCall n i).isSome = true) :
    deletar_imagem deleteCall tabela nome = (false, tabela) := by
  have hloop := deletarFragmentosLoop_eq_true_iff deleteCall 0 frags
  simp only [Nat.zero_add] at hloop
  have hl : deletarFragmentosLoop deleteCall 0 frags ≠ true := fun h => hnall (hloop.mp h)
  rw [deletar_imagem, htrack]
  simp [hl]

/-- C6 amended: deletion attempts a delete of every replica of every fragment;
a per-node delete that merely RETURNS failure does not block removal (its
boolean is ignored, so removal needs only that no call raises), and then the
object leaves the listing; but a node call that RAISES (e.g. an unreachable
node) aborts the method before table removal, the call returns `False`, and
the object remains in the listing. -/
theorem deletar_imagem_removal_conditions
    (deleteCall : String → ℕ → Option Bool) (tabela : TabelaIndice) (nome : String)
    (frags : List Fragmento) (htrack : dictGet? nome tabela = some frags)
    (hnd : (tabela.map Prod.fst).Nodup) :
    ((∀ i f, frags.get? i = some f → ∀ n ∈ f.nodes, (deleteCall n i).isSome = true) →
      deletar_imagem deleteCall tabela nome = (true, dictDel nome tabela) ∧
      nome ∉ listar_imagens (dictDel nome tabela)) ∧
    ((¬ ∀ i f, frags.get? i = some f → ∀ n ∈ f.nodes, (deleteCall n i).isSome = true) →
      deletar_imagem deleteCall tabela nome = (false, tabela) ∧
      nome ∈ listar_imagens tabela) := by
  constructor
  · intro hall
    exact ⟨deletar_imagem_ok deleteCall tabela nome frags htrack hall,
      not_mem_map_fst_dictDel hnd⟩
  · intro hnall
    exact ⟨deletar_imagem_fail deleteCall tabela nome frags htrack hnall,
      mem_map_fst_of_dictGet? htrack⟩

/-- Witness table for C6: two fragments replicated on nodes whose delete calls
all return `False` (failure) without raising. -/
def tabelaC6w : TabelaIndice := [("b", [⟨["n1", "n2"], some 5⟩, ⟨["n2"], some 3⟩])]

/-- Witness for C6: every per-node delete fails (returns `False`) yet the
object is removed from the table and no longer listed. -/
theorem deletar_imagem_removal_conditions_witness :
    dictGet? "b" tabelaC6w = some [⟨["n1", "n2"], some 5⟩, ⟨["n2"], some 3⟩] ∧
    (tabelaC6w.map Prod.fst).Nodup ∧
    deletar_imagem (fun _ _ => some false) tabelaC6w "b" = (true, dictDel "b" tabelaC6w) ∧
    "b" ∉ listar_imagens (dictDel "b" tabelaC6w) :=
  ⟨by decide, by decide,
    (deletar_imagem_removal_conditions (fun _ _ => some false) tabelaC6w "b"
      [⟨["n1", "n2"], some 5⟩, ⟨["n2"], some 3⟩] (by decide) (by decide)).1
      (fun _ _ _ _ _ => rfl)⟩

/-- Hash stand-in for the coordinator counterexample and witnesses. -/
def md5len : String → ℕ := fun s => s.length

/-- Metadata for the C7 counterexample: the name `"a"` is already tracked with
`total_size = 5`. -/
def metaC7 : List (String × ImageMeta) := [("a", ⟨5, 1, 2097152, [], none⟩)]

/-- C7 counterexample: `CoordinatorNode.exposed_initiate_upload` performs no
existence check — initiating an upload for the already-tracked name `"a"`
produces a normal success response (no already-exists error is even possible:
the return type has no failure branch) and silently overwrites the metadata
entry, changing its recorded total size from 5 to 7. -/
theorem initiate_upload_overwrites_existing :
    (dictGet? "a" metaC7).map ImageMeta.total_size = some 5 ∧
    (initiate_upload md5len 2 ["na", "nb"] metaC7 "a" 7).1.2.1 = 1 ∧
    (dictGet? "a" (initiate_upload md5len 2 ["na", "nb"] metaC7 "a" 7).2).map
        ImageMeta.total_size = some 7 := by decide

/-- C7 amended (the `Server`/`Cluster` path): initiating an upload for a name
tracked in `tabela_indice` fails with the already-exists response and leaves
the table unchanged; a successful delete removes the name, after which
initiating the same name succeeds and creates fresh empty fragment slots.  The
`CoordinatorNode` path, by contrast, overwrites unconditionally (see the
counterexample). -/
theorem iniciar_upload_rejects_tracked_until_deleted
    (dataNodes : List (String × Option NodeStatus)) (R : ℕ)
    (tabela : TabelaIndice) (nome : String) (tam : ℕ) (frags : List Fragmento)
    (deleteCall : String → ℕ → Option Bool)
    (htrack : dictGet? nome tabela = some frags)
    (hnd : (tabela.map Prod.fst).Nodup)
    (hok : ∀ i f, frags.get? i = some f → ∀ n ∈ f.nodes, (deleteCall n i).isSome = true) :
    iniciar_upload dataNodes R tabela nome tam = (⟨false, none, none⟩, tabela) ∧
    deletar_imagem deleteCall tabela nome = (true, dictDel nome tabela) ∧
    (iniciar_upload dataNodes R (dictDel nome tabela) nome tam).1.sucesso = true ∧
    dictGet? nome (iniciar_upload dataNodes R (dictDel nome tabela) nome tam).2 =
      some (List.replicate (divisoesImagem tam) ⟨[], none⟩) := by
  have hmem : dictMem nome tabela = true := by
    rw [dictMem, htrack]
    rfl
  have hdel := deletar_imagem_ok deleteCall tabela nome frags htrack hok
  have hnomem : dictMem nome (dictDel nome tabela) = false := by
    rw [dictMem]
    have : dictGet? nome (dictDel nome tabela) = none :=
      dictGet?_eq_none_iff.mpr (not_mem_map_fst_dictDel hnd)
    rw [this]
    rfl
  refine ⟨?_, hdel, ?_, ?_⟩
  · rw [iniciar_upload]
    simp only [iniciar_tabela_indice, hmem, if_true]
    rfl
  · rw [iniciar_upload]
    simp only [iniciar_tabela_indice, hnomem]
    rfl
  · rw [iniciar_upload]
    simp only [iniciar_tabela_indice, hnomem]
    simpa using dictGet?_dictSet_self nome
      (List.replicate (divisoesImagem tam) (⟨[], none⟩ : Fragmento)) (dictDel nome tabela)

/-- Witness for C7: the tracked name `"a"` with one fragment on `n1`, all
delete calls succeeding. -/
theorem iniciar_upload_rejects_tracked_until_deleted_witness :
    dictGet? "a" tabelaC6 = some [⟨["n1"], some 5⟩] ∧
    (tabelaC6.map Prod.fst).Nodup ∧
    iniciar_upload nodes4 2 tabelaC6 "a" 100 = (⟨false, none, none⟩, tabelaC6) :=
  ⟨by decide, by decide,
    (iniciar_upload_rejects_tracked_until_deleted nodes4 2 tabelaC6 "a" 100
      [⟨["n1"], some 5⟩] (fun _ _ => some true) (by decide) (by decide)
      (fun _ _ _ _ _ => rfl)).1⟩

/-- The state after tracking image `"a"` (one fragment slot) in a fresh
`Models`. -/
def mC4a : Models := (Models.empty.iniciar_imagem "a" 1).1

/-- One `atualizar_fragmento` call on `mC4a`. -/
def mC4once : Models :=
  (mC4a.atualizar_fragmento "a" 0 100 ["n1"]).getD Models.empty

/-- Two identical `atualizar_fragmento` calls on `mC4a`. -/
def mC4twice : Models :=
  (mC4once.atualizar_fragmento "a" 0 100 ["n1"]).getD Models.empty

/-- C4 counterexample: `Models.atualizar_fragmento` is NOT idempotent in the
reported total size — calling it twice with the identical
`(name, index, size, nodes)` leaves the replica list and fragment sizes alone
but doubles `obter_tamanho_imagem` (100 → 200), so the resulting table state
differs from a single call. -/
theorem atualizar_fragmento_not_idempotent_total :
    mC4a.atualizar_fragmento "a" 0 100 ["n1"] = some mC4once ∧
    mC4once.atualizar_fragmento "a" 0 100 ["n1"] = some mC4twice ∧
    mC4once.obter_tamanho_imagem "a" = 100 ∧
    mC4twice.obter_tamanho_imagem "a" = 200 ∧
    mC4twice ≠ mC4once := by decide


theorem cluster_double_update (t : TabelaIndice) (nome : String) (idx tam : ℕ)
    (ns : List String) (frags : List Fragmento)
    (htrack : dictGet? nome t = some frags) (hidx : idx < frags.length) :
    ∃ t1,
      atualizar_tabela_indice t nome idx tam ns = some t1 ∧
      atualizar_tabela_indice t1 nome idx tam ns = some t1 ∧
      (∀ ns2, ∃ t2 tl,
        atualizar_tabela_indice t1 nome idx tam ns2 = some t2 ∧
        dictGet? nome t2 =
          some (frags.set idx
            ⟨addUniqueNodes (frags.getD idx ⟨[], none⟩).nodes ns ++ tl, some tam⟩) ∧
        ∀ a ∈ tl, a ∈ ns2) := by
  have hstep := atualizar_tabela_indice_eq t nome idx tam ns frags htrack hidx
  have hlen1 : idx <
      (frags.set idx
        ⟨addUniqueNodes (frags.getD idx ⟨[], none⟩).nodes ns, some tam⟩).length := by
    rw [List.length_set]
    exact hidx
  have hgetD1 :
      (frags.set idx
          ⟨addUniqueNodes (frags.getD idx ⟨[], none⟩).nodes ns, some tam⟩).getD idx
          ⟨[], none⟩ =
        ⟨addUniqueNodes (frags.getD idx ⟨[], none⟩).nodes ns, some tam⟩ := by
    rw [List.getD_eq_getElem?_getD, List.getElem?_set_self hidx, Option.getD_some]
  have hAA : addUniqueNodes (addUniqueNodes (frags.getD idx ⟨[], none⟩).nodes ns) ns =
      addUniqueNodes (frags.getD idx ⟨[], none⟩).nodes ns := by
    apply addUniqueNodes_of_subset
    intro n hn
    exact (mem_addUniqueNodes _ _ _).mpr (Or.inr hn)
  refine ⟨_, hstep, ?_, ?_⟩
  · have hstep2 := atualizar_tabela_indice_eq _ nome idx tam ns
      (frags.set idx ⟨addUniqueNodes (frags.getD idx ⟨[], none⟩).nodes ns, some tam⟩)
      (dictGet?_dictSet_self _ _ t) hlen1
    rw [hstep2, hgetD1]
    dsimp only
    rw [hAA, List.set_set, dictSet_dictSet_self]
  · intro ns2
    obtain ⟨tl, htl, hsub⟩ :=
      addUniqueNodes_eq_append (addUniqueNodes (frags.getD idx ⟨[], none⟩).nodes ns) ns2
    refine ⟨dictSet nome
        (frags.set idx
          ⟨addUniqueNodes (frags.getD idx ⟨[], none⟩).nodes ns ++ tl, some tam⟩) t,
      tl, ?_, dictGet?_dictSet_self nome _ t, hsub⟩
    have hstep3 := atualizar_tabela_indice_eq _ nome idx tam ns2
      (frags.set idx ⟨addUniqueNodes (frags.getD idx ⟨[], none⟩).nodes ns, some tam⟩)
      (dictGet?_dictSet_self _ _ t) hlen1
    rw [hstep3, hgetD1]
    dsimp only
    rw [htl, List.set_set, dictSet_dictSet_self]

theorem models_double_update (m : Models) (nome : String) (idx tam : ℕ) (ns : List String)
    (mfr : List (List String)) (mtams : List (Option ℕ)) (mtot : ℕ)
    (h1 : dictGet? nome m.nos_fragmentos = some mfr)
    (h2 : dictGet? nome m.tamanho_fragmentos = some mtams)
    (h3 : dictGet? nome m.tamanho_imagem = some mtot)
    (hidx : idx < mfr.length) (hidx2 : idx < mtams.length) :
    ∃ m1 m2,
      m.atualizar_fragmento nome idx tam ns = some m1 ∧
      m1.atualizar_fragmento nome idx tam ns = some m2 ∧
      m2.nos_fragmentos = m1.nos_fragmentos ∧
      m2.tamanho_fragmentos = m1.tamanho_fragmentos ∧
      m2.obter_tamanho_imagem nome = m1.obter_tamanho_imagem nome + tam := by
  have hstep := atualizar_fragmento_eq m nome idx tam ns mfr mtams mtot h1 h2 h3 hidx hidx2
  have hlen1 : idx < (mfr.set idx (addUniqueNodes (mfr.getD idx []) ns)).length := by
    rw [List.length_set]
    exact hidx
  have hlen2 : idx < (mtams.set idx (some tam)).length := by
    rw [List.length_set]
    exact hidx2
  have hstep2 := atualizar_fragmento_eq
    { nos_fragmentos :=
        dictSet nome (mfr.set idx (addUniqueNodes (mfr.getD idx []) ns)) m.nos_fragmentos
      tamanho_fragmentos := dictSet nome (mtams.set idx (some tam)) m.tamanho_fragmentos
      tamanho_imagem := dictSet nome (mtot + tam) m.tamanho_imagem }
    nome idx tam ns (mfr.set idx (addUniqueNodes (mfr.getD idx []) ns))
    (mtams.set idx (some tam)) (mtot + tam)
    (dictGet?_dictSet_self _ _ _) (dictGet?_dictSet_self _ _ _) (dictGet?_dictSet_self _ _ _)
    hlen1 hlen2
  have hgetDm : (mfr.set idx (addUniqueNodes (mfr.getD idx []) ns)).getD idx [] =
      addUniqueNodes (mfr.getD idx []) ns := by
    rw [List.getD_eq_getElem?_getD, List.getElem?_set_self hidx, Option.getD_some]
  have hAA : addUniqueNodes (addUniqueNodes (mfr.getD idx []) ns) ns =
      addUniqueNodes (mfr.getD idx []) ns := by
    apply addUniqueNodes_of_subset
    intro n hn
    exact (mem_addUniqueNodes _ _ _).mpr (Or.inr hn)
  refine ⟨_, _, hstep, hstep2, ?_, ?_, ?_⟩
  · dsimp only
    rw [hgetDm, hAA, List.set_set, dictSet_dictSet_self]
  · dsimp only
    rw [List.set_set, dictSet_dictSet_self]
  · rw [Models.obter_tamanho_imagem, Models.obter_tamanho_imagem]
    dsimp only
    rw [dictGet?_dictSet_self, dictGet?_dictSet_self]
    rfl

/-- C4 amended: with the same `(name, index, size, nodes)`, the `Cluster` index
table version of `record_fragment` (`atualizar_tabela_indice`) is fully
idempotent — the second call returns the very same table, hence also the same
reported total size — and a further call with any node list (in particular a
superset) accretes: it appends exactly the nodes not already present, never
overwriting the existing replica list.  In `Models.atualizar_fragmento` the
replica lists and fragment sizes are likewise idempotent, but the cached total
image size grows by `size` on every call, so the reported total size is not
idempotent there. -/
theorem record_fragment_idempotence_and_accretion
    (t : TabelaIndice) (nome : String) (idx tam : ℕ) (ns : List String)
    (frags : List Fragmento) (htrack : dictGet? nome t = some frags)
    (hidx : idx < frags.length)
    (m : Models) (mnome : String) (midx mtam : ℕ) (mns : List String)
    (mfr : List (List String)) (mtams : List (Option ℕ)) (mtot : ℕ)
    (hm1 : dictGet? mnome m.nos_fragmentos = some mfr)
    (hm2 : dictGet? mnome m.tamanho_fragmentos = some mtams)
    (hm3 : dictGet? mnome m.tamanho_imagem = some mtot)
    (hmidx : midx < mfr.length) (hmidx2 : midx < mtams.length) :
    (∃ t1,
      atualizar_tabela_indice t nome idx tam ns = some t1 ∧
      atualizar_tabela_indice t1 nome idx tam ns = some t1 ∧
      (∀ ns2, ∃ t2 tl,
        atualizar_tabela_indice t1 nome idx tam ns2 = some t2 ∧
        dictGet? nome t2 =
          some (frags.set idx
            ⟨addUniqueNodes (frags.getD idx ⟨[], none⟩).nodes ns ++ tl, some tam⟩) ∧
        ∀ a ∈ tl, a ∈ ns2)) ∧
    (∃ m1 m2,
      m.atualizar_fragmento mnome midx mtam mns = some m1 ∧
      m1.atualizar_fragmento mnome midx mtam mns = some m2 ∧
      m2.nos_fragmentos = m1.nos_fragmentos ∧
      m2.tamanho_fragmentos = m1.tamanho_fragmentos ∧
      m2.obter_tamanho_imagem mnome = m1.obter_tamanho_imagem mnome + mtam) :=
  ⟨cluster_double_update t nome idx tam ns frags htrack hidx,
   models_double_update m mnome midx mtam mns mfr mtams mtot hm1 hm2 hm3 hmidx hmidx2⟩

/-- Witness for C4 at concrete inputs: the `tabelaC1` table and the tracked
`Models` state `mC4a`, fragment 0, size 100, nodes `["n1"]`. -/
theorem record_fragment_idempotence_and_accretion_witness :
    dictGet? "img" tabelaC1 = some [⟨[], none⟩, ⟨[], none⟩] ∧
    (0 : ℕ) < ([⟨[], none⟩, ⟨[], none⟩] : List Fragmento).length ∧
    dictGet? "a" mC4a.nos_fragmentos = some [[]] ∧
    dictGet? "a" mC4a.tamanho_fragmentos = some [none] ∧
    dictGet? "a" mC4a.tamanho_imagem = some 0 ∧
    (∃ m1 m2,
      mC4a.atualizar_fragmento "a" 0 100 ["n1"] = some m1 ∧
      m1.atualizar_fragmento "a" 0 100 ["n1"] = some m2 ∧
      m2.nos_fragmentos = m1.nos_fragmentos ∧
      m2.tamanho_fragmentos = m1.tamanho_fragmentos ∧
      m2.obter_tamanho_imagem "a" = m1.obter_tamanho_imagem "a" + 100) :=
  ⟨by decide, by decide, by decide, by decide, by decide,
    (record_fragment_idempotence_and_accretion tabelaC1 "img" 0 7 ["n1"]
      [⟨[], none⟩, ⟨[], none⟩] (by decide) (by decide)
      mC4a "a" 0 100 ["n1"] [[]] [none] 0
      (by decide) (by decide) (by decide) (by decide) (by decide)).2⟩

theorem getD_map_range {α : Type} (f : ℕ → α) (R k : ℕ) (hk : k < R) (d : α) :
    ((List.range R).map f).getD k d = f k := by
  rw [List.getD_eq_getElem?_getD, List.getElem?_map, List.getElem?_range hk]
  rfl

theorem getD_indexOf (l : List String) {a : String} (h : a ∈ l) (d : String) :
    l.getD (l.indexOf a) d = a := by
  rw [List.getD_eq_getElem?_getD, List.getElem?_eq_getElem (List.indexOf_lt_length.mpr h)]
  simp [List.getElem_indexOf]

theorem getD_mem_of_lt (l : List String) (j : ℕ) (hj : j < l.length) (d : String) :
    l.getD j d ∈ l := by
  rw [List.getD_eq_getElem?_getD, List.getElem?_eq_getElem hj]
  exact List.getElem_mem hj

theorem minByKey_le_cons {α : Type} (key : α → ℕ) (acc : α) (l : List α) :
    ∀ y ∈ acc :: l, key (minByKey key acc l) ≤ key y := by
  intro y hy
  rcases List.mem_cons.mp hy with rfl | hy
  · exact (minByKey_le key _ l).1
  · exact (minByKey_le key acc l).2 y hy

theorem nearest_anchor_spec (key : String → ℕ) (s0 : String) (srest : List String) :
    (s0 :: srest).indexOf (minByKey key s0 srest) < (s0 :: srest).length ∧
    (∀ j, j < (s0 :: srest).length →
      key ((s0 :: srest).getD ((s0 :: srest).indexOf (minByKey key s0 srest)) dfltNode) ≤
        key ((s0 :: srest).getD j dfltNode)) := by
  have hmem : minByKey key s0 srest ∈ s0 :: srest := by
    rcases minByKey_mem key s0 srest with he | hm
    · rw [he]
      exact List.mem_cons_self _ _
    · exact List.mem_cons_of_mem _ hm
  refine ⟨List.indexOf_lt_length.mpr hmem, ?_⟩
  intro j hj
  rw [getD_indexOf _ hmem]
  exact minByKey_le_cons key s0 srest _ (getD_mem_of_lt _ j hj _)

/-- C3: for every nonempty node list and fragment `(name, index)`, Strategy B
placement computes `h = hash(name ++ "_" ++ index)`, sorts the nodes stably
ascending by `hash(str(node))`, anchors at the position of the node whose hash
has the smallest absolute difference from `h`, and returns the next `R` nodes
cyclically from that position in that cyclic order; the function is a pure
mapping, so repeated calls on the same inputs return the identical replica
list in the identical order. -/
theorem strategyB_placement_spec (md5 : String → ℕ) (R : ℕ) (name : String)
    (idx : ℕ) (nodes : List String) (hne : nodes ≠ []) :
    ∃ l, select_nodes_for_fragment md5 R name idx nodes = some l ∧
      (sortedNodesByHash md5 nodes).Perm nodes ∧
      (sortedNodesByHash md5 nodes).Sorted (fun x y => md5 x ≤ md5 y) ∧
      (∃ start, start < (sortedNodesByHash md5 nodes).length ∧
        (∀ j, j < (sortedNodesByHash md5 nodes).length →
          absDiff (md5 ((sortedNodesByHash md5 nodes).getD start dfltNode))
              (md5 (name ++ "_" ++ toString idx)) ≤
            absDiff (md5 ((sortedNodesByHash md5 nodes).getD j dfltNode))
              (md5 (name ++ "_" ++ toString idx))) ∧
        l = (List.range R).map
          (fun i => (sortedNodesByHash md5 nodes).getD
            ((start + i) % (sortedNodesByHash md5 nodes).length) dfltNode)) ∧
      (∀ l2, select_nodes_for_fragment md5 R name idx nodes = some l2 → l2 = l) := by
  have hperm : (sortedNodesByHash md5 nodes).Perm nodes := List.perm_insertionSort _ _
  haveI : IsTotal String (fun x y => md5 x ≤ md5 y) := ⟨fun _ _ => le_total _ _⟩
  haveI : IsTrans String (fun x y => md5 x ≤ md5 y) := ⟨fun _ _ _ => le_trans⟩
  have hsorted : (sortedNodesByHash md5 nodes).Sorted (fun x y => md5 x ≤ md5 y) :=
    List.sorted_insertionSort _ _
  cases hs : sortedNodesByHash md5 nodes with
  | nil =>
    exfalso
    have hlen := hperm.length_eq
    rw [hs] at hlen
    cases nodes with
    | nil => exact hne rfl
    | cons a l => simp at hlen
  | cons s0 srest =>
    rw [hs] at hperm hsorted
    have hsel : select_nodes_for_fragment md5 R name idx nodes =
        some ((List.range R).map
          (fun i => (s0 :: srest).getD
            (((s0 :: srest).indexOf
                (minByKey (fun node =>
                  absDiff (md5 node) (md5 (name ++ "_" ++ toString idx))) s0 srest) + i) %
              (s0 :: srest).length) dfltNode)) := by
      simp only [select_nodes_for_fragment, hs]
    obtain ⟨hstart, hmin⟩ :=
      nearest_anchor_spec
        (fun node => absDiff (md5 node) (md5 (name ++ "_" ++ toString idx))) s0 srest
    refine ⟨_, hsel, hperm, hsorted,
      ⟨(s0 :: srest).indexOf
        (minByKey (fun node =>
          absDiff (md5 node) (md5 (name ++ "_" ++ toString idx))) s0 srest),
        hstart, hmin, rfl⟩, ?_⟩
    intro l2 h2
    rw [hsel] at h2
    exact (Option.some.inj h2).symm

/-- C10: for every nonempty node list of length `N`, Strategy B placement
returns exactly `R` entries even when `N < R`; positions are taken modulo `N`,
so in that case the returned replica list repeats node entries (position `0`
equals position `N`) and is not a list of distinct node ids. -/
theorem strategyB_replication_count (md5 : String → ℕ) (R : ℕ) (name : String)
    (idx : ℕ) (nodes : List String) (hne : nodes ≠ []) :
    ∃ l, select_nodes_for_fragment md5 R name idx nodes = some l ∧
      l.length = R ∧
      (nodes.length < R →
        0 < nodes.length ∧ l.getD 0 dfltNode = l.getD nodes.length dfltNode) := by
  have hslen : (sortedNodesByHash md5 nodes).length = nodes.length :=
    List.length_insertionSort _ _
  cases hs : sortedNodesByHash md5 nodes with
  | nil =>
    exfalso
    rw [hs] at hslen
    cases nodes with
    | nil => exact hne rfl
    | cons a l => simp at hslen
  | cons s0 srest =>
    rw [hs] at hslen
    have hsel : select_nodes_for_fragment md5 R name idx nodes =
        some ((List.range R).map
          (fun i => (s0 :: srest).getD
            (((s0 :: srest).indexOf
                (minByKey (fun node =>
                  absDiff (md5 node) (md5 (name ++ "_" ++ toString idx))) s0 srest) + i) %
              (s0 :: srest).length) dfltNode)) := by
      simp only [select_nodes_for_fragment, hs]
    refine ⟨_, hsel, by simp, ?_⟩
    intro hNR
    have h0 : 0 < nodes.length := by
      rw [← hslen]
      simp
    refine ⟨h0, ?_⟩
    rw [getD_map_range _ R 0 (lt_of_le_of_lt (Nat.zero_le _) hNR) dfltNode,
      getD_map_range _ R nodes.length hNR dfltNode]
    congr 1
    rw [← hslen, Nat.add_zero, Nat.add_mod_right]

/-- Witness for C3: three nodes, replication factor 2, the length-based hash
stand-in. -/
theorem strategyB_placement_spec_witness :
    (["na", "b", "ccc"] : List String) ≠ [] ∧
    ∃ l, select_nodes_for_fragment md5len 2 "img" 0 ["na", "b", "ccc"] = some l :=
  ⟨by decide,
    (strategyB_placement_spec md5len 2 "img" 0 ["na", "b", "ccc"] (by decide)).elim
      (fun l hl => ⟨l, hl.1⟩)⟩

/-- Witness for C10: a single node with replication factor 2 — the placement
still returns 2 entries. -/
theorem strategyB_replication_count_witness :
    (["solo"] : List String) ≠ [] ∧
    ∃ l, select_nodes_for_fragment md5len 2 "img" 0 ["solo"] = some l ∧ l.length = 2 :=
  ⟨by decide,
    (strategyB_replication_count md5len 2 "img" 0 ["solo"] (by decide)).elim
      (fun l hl => ⟨l, hl.1, hl.2.1⟩)⟩

theorem check_node_health_unchanged :
    ∀ (nodes : List (String × StorageNodeInfo)) (now : ℤ),
      (∀ p ∈ nodes, ¬(now - p.2.last_heartbeat > 30)) → check_node_health nodes now = nodes
  | [], _, _ => rfl
  | p :: rest, now, h => by
    have hrest := check_node_health_unchanged rest now
      (fun q hq => h q (List.mem_cons_of_mem _ hq))
    simp only [check_node_health, List.map_cons] at hrest ⊢
    rw [if_neg (h p (List.mem_cons_self _ _)), hrest]

theorem check_timeout_core :
    ∀ (nodes : List (String × StorageNodeInfo)) (now : ℤ) (id : String)
      (info : StorageNodeInfo),
      (nodes.map Prod.fst).Nodup →
      dictGet? id nodes = some info →
      info.status = "active" →
      now - info.last_heartbeat > 30 →
      (∀ p ∈ nodes, p.1 ≠ id → ¬(now - p.2.last_heartbeat > 30)) →
      dictGet? id (check_node_health nodes now) = some { info with status := "inactive" } ∧
      system_status_active_nodes (check_node_health nodes now) + 1 =
        system_status_active_nodes nodes
  | [], _, _, _, _, hlook, _, _, _ => by simp [dictGet?] at hlook
  | p :: rest, now, id, info, hnd, hlook, hact, htime, hothers => by
    simp only [List.map_cons, List.nodup_cons] at hnd
    by_cases hpid : id = p.1
    · have hinfo : info = p.2 := by
        rw [dictGet?, if_pos hpid] at hlook
        exact (Option.some.inj hlook).symm
      have hrest_unch : check_node_health rest now = rest := by
        apply check_node_health_unchanged
        intro q hq
        apply hothers q (List.mem_cons_of_mem _ hq)
        intro hqid
        apply hnd.1
        rw [← hpid, ← hqid]
        exact List.mem_map_of_mem Prod.fst hq
      have htimep : now - p.2.last_heartbeat > 30 := by
        rw [← hinfo]
        exact htime
      have hactp : p.2.status = "active" := by
        rw [← hinfo]
        exact hact
      constructor
      · simp only [check_node_health, List.map_cons, if_pos htimep]
        rw [dictGet?, if_pos hpid, hinfo]
      · have h1 : (({ p.2 with status := "inactive" } : StorageNodeInfo).status ==
            "active") = false := by
          simp
        simp only [system_status_active_nodes, check_node_health, List.map_cons,
          if_pos htimep]
        rw [show List.map
            (fun q => if now - q.2.last_heartbeat > 30 then
              (q.1, { q.2 with status := "inactive" }) else q) rest =
            check_node_health rest now from rfl, hrest_unch]
        simp only [List.filter_cons]
        rw [if_neg (by simp [h1]), if_pos (by simp [hactp])]
        simp
    · have hlookrest : dictGet? id rest = some info := by
        rw [dictGet?, if_neg hpid] at hlook
        exact hlook
      have hothersrest : ∀ q ∈ rest, q.1 ≠ id → ¬(now - q.2.last_heartbeat > 30) :=
        fun q hq => hothers q (List.mem_cons_of_mem _ hq)
      have hheadok : ¬(now - p.2.last_heartbeat > 30) :=
        hothers p (List.mem_cons_self _ _) (fun h => hpid h.symm)
      obtain ⟨ih1, ih2⟩ :=
        check_timeout_core rest now id info hnd.2 hlookrest hact htime hothersrest
      have hchead : check_node_health (p :: rest) now = p :: check_node_health rest now := by
        simp only [check_node_health, List.map_cons, if_neg hheadok]
      constructor
      · rw [hchead, dictGet?, if_neg hpid]
        exact ih1
      · rw [hchead]
        simp only [system_status_active_nodes, List.filter_cons] at ih2 ⊢
        by_cases hp : (p.2.status == "active") = true
        · rw [if_pos hp, if_pos hp]
          simp only [List.length_cons]
          omega
        · rw [if_neg hp, if_neg hp]
          omega

/-- C9: a registered, active node whose heartbeat is more than 30 seconds old
is marked `'inactive'` by the periodic health sweep; if it is the only node
timing out, the reported active-node count drops by exactly one while the
total node count is unchanged; and a subsequent heartbeat refreshes
`last_heartbeat` and forces the status back to `'active'`. -/
theorem heartbeat_timeout_health_cycle
    (nodes : List (String × StorageNodeInfo)) (now now2 : ℤ) (id : String)
    (info : StorageNodeInfo)
    (hnd : (nodes.map Prod.fst).Nodup)
    (hlook : dictGet? id nodes = some info)
    (hact : info.status = "active")
    (htime : now - info.last_heartbeat > 30)
    (hothers : ∀ p ∈ nodes, p.1 ≠ id → ¬(now - p.2.last_heartbeat > 30)) :
    dictGet? id (check_node_health nodes now) = some { info with status := "inactive" } ∧
    system_status_active_nodes (check_node_health nodes now) + 1 =
      system_status_active_nodes nodes ∧
    system_status_total_nodes (check_node_health nodes now) =
      system_status_total_nodes nodes ∧
    ∃ ns2, heartbeat (check_node_health nodes now) id now2 = (true, ns2) ∧
      dictGet? id ns2 = some ⟨info.address, "active", now2⟩ := by
  obtain ⟨h1, h2⟩ := check_timeout_core nodes now id info hnd hlook hact htime hothers
  refine ⟨h1, h2, by simp [system_status_total_nodes, check_node_health], ?_⟩
  have hb : heartbeat (check_node_health nodes now) id now2 =
      (true, dictSet id ⟨info.address, "active", now2⟩ (check_node_health nodes now)) := by
    simp only [heartbeat, h1]
  exact ⟨_, hb, dictGet?_dictSet_self _ _ _⟩

/-- Concrete node map for the C9 witness: `n1` last beat at time 0 (stale at
time 40), `n2` at time 35 (fresh). -/
def nodesC9 : List (String × StorageNodeInfo) :=
  [("n1", ⟨"h1", "active", 0⟩), ("n2", ⟨"h2", "active", 35⟩)]

/-- Witness for C9 at time 40 with a follow-up heartbeat at time 50. -/
theorem heartbeat_timeout_health_cycle_witness :
    (nodesC9.map Prod.fst).Nodup ∧
    dictGet? "n1" nodesC9 = some ⟨"h1", "active", 0⟩ ∧
    (⟨"h1", "active", 0⟩ : StorageNodeInfo).status = "active" ∧
    (40 : ℤ) - (0 : ℤ) > 30 ∧
    (∀ p ∈ nodesC9, p.1 ≠ "n1" → ¬((40 : ℤ) - p.2.last_heartbeat > 30)) ∧
    system_status_active_nodes (check_node_health nodesC9 40) + 1 =
      system_status_active_nodes nodesC9 :=
  ⟨by decide, by decide, by decide, by decide, by decide,
    (heartbeat_timeout_health_cycle nodesC9 40 50 "n1" ⟨"h1", "active", 0⟩
      (by decide) (by decide) (by decide) (by decide) (by decide)).2.1⟩

end MyGeo
